import Mathlib

/-!
Shallow embedding of the MPIManager library (src/include/mpimgr.h and
src/src/mpimgr.cpp): a rank-aware, severity-filtered logging and timer-stack
engine for MPI processes.  Output to the terminal, collective barriers,
finalization and group aborts are modelled as an explicit trace of events;
each member function of the C++ class becomes a Lean function from the
manager state (and, where the code reads the clock, an explicit timestamp)
to a new state and/or a list of emitted events.
-/

/-- Severity level enum following the syslog standard (header `Level`,
declaration order fixes the underlying ordinal: emerg = 0 … debug = 7). -/
inductive Level where
  | emerg
  | alert
  | crit
  | err
  | warning
  | notice
  | info
  | debug
deriving DecidableEq, Repr

/-- Underlying integer value of the C++ scoped enum `Level` (its declaration
order). C++ `<=` on `Level` compares these values. -/
def Level.ord : Level → Nat
  | .emerg => 0
  | .alert => 1
  | .crit => 2
  | .err => 3
  | .warning => 4
  | .notice => 5
  | .info => 6
  | .debug => 7

/-- Rank-selection enum `Ranks`: log on rank zero only, or on all ranks. -/
inductive Ranks where
  | zero
  | all
deriving DecidableEq, Repr

/-- The `Timer` struct: start time, level, name.  The chrono time point is
abstracted as a natural-number timestamp. -/
structure Timer where
  start : Nat
  level : Level
  name : String
deriving DecidableEq, Repr

/-- Observable effects of the manager.  `line rank label msg` is one rendered
terminal line `Rank <rank>: <label>: <msg>` (bold/color styling dropped);
`barrier` is a call to `MPI_Barrier`; `finalize` is `MPI_Finalize`;
`abortGroup s` is `MPI_Abort` with status `s`. -/
inductive Event where
  | line (rank : Int) (label : String) (msg : String)
  | barrier
  | finalize
  | abortGroup (status : Int)
deriving DecidableEq, Repr

/-- Whether an event is a rendered log line. -/
def Event.isLine : Event → Bool
  | .line _ _ _ => true
  | _ => false

/-- Rank that emitted a line event (0 for non-line events). -/
def Event.lineRank : Event → Int
  | .line r _ _ => r
  | _ => 0

/-- Number of rendered log lines in a trace. -/
def lineCount (evs : List Event) : Nat :=
  evs.countP Event.isLine

/-- The `MPIManager` class state: communicator handle, rank and size
(populated by `MPI_Init`/`MPI_Comm_rank`/`MPI_Comm_size`), the configured
maximum level and rank selector (both `const` members), and the timer stack
(a `std::vector<Timer>` used as a stack, top at the back). -/
structure MPIManager where
  comm : Nat
  rank : Int
  size : Int
  level : Level
  ranks : Ranks
deriving DecidableEq, Repr

/-- Manager together with its private timer stack. -/
structure MPIState where
  mgr : MPIManager
  timers : List Timer
deriving DecidableEq, Repr

/-- The constructor `MPIManager::MPIManager`: stores the configured level and
rank selector, joins the runtime, and records the communicator, rank and
size reported by it; the timer stack starts empty. -/
def MPIManager.construct (comm : Nat) (rank size : Int) (level : Level)
    (ranks : Ranks) : MPIState :=
  ⟨⟨comm, rank, size, level, ranks⟩, []⟩

/-- `MPIManager::sufficient_level`: true iff the ordinal of the queried level
is at most the ordinal of the configured maximum level. -/
def MPIManager.sufficient_level (m : MPIManager) (level : Level) : Bool :=
  if level.ord ≤ m.level.ord then true else false

/-- `MPIManager::sufficient_rank`: with selector `zero` only rank 0 acts,
with selector `all` every rank acts. -/
def MPIManager.sufficient_rank (m : MPIManager) : Bool :=
  if Ranks.zero = m.ranks then 0 = m.rank else true

/-- `MPIManager::log_emerg`: renders one line labelled `[EMERG]`. -/
def MPIManager.log_emerg (m : MPIManager) (msg : String) : Event :=
  .line m.rank "[EMERG]" msg

/-- `MPIManager::log_alert`: renders one line labelled `[ALERT]`. -/
def MPIManager.log_alert (m : MPIManager) (msg : String) : Event :=
  .line m.rank "[ALERT]" msg

/-- `MPIManager::log_crit`: renders one line labelled `[CRIT]`. -/
def MPIManager.log_crit (m : MPIManager) (msg : String) : Event :=
  .line m.rank "[CRIT]" msg

/-- `MPIManager::log_err`: renders one line labelled `[ERR]`. -/
def MPIManager.log_err (m : MPIManager) (msg : String) : Event :=
  .line m.rank "[ERR]" msg

/-- `MPIManager::log_warning`: renders one line labelled `[WARNING]`. -/
def MPIManager.log_warning (m : MPIManager) (msg : String) : Event :=
  .line m.rank "[WARNING]" msg

/-- `MPIManager::log_notice`: renders one line labelled `[NOTICE]`. -/
def MPIManager.log_notice (m : MPIManager) (msg : String) : Event :=
  .line m.rank "[NOTICE]" msg

/-- `MPIManager::log_info`: renders one line labelled `[INFO]`. -/
def MPIManager.log_info (m : MPIManager) (msg : String) : Event :=
  .line m.rank "[INFO]" msg

/-- `MPIManager::log_debug`: renders one line labelled `[DEBUG]`. -/
def MPIManager.log_debug (m : MPIManager) (msg : String) : Event :=
  .line m.rank "[DEBUG]" msg

/-- The integers 0, 1, …, n-1 in order: `std::views::iota(0, n)` (empty when
`n ≤ 0`). -/
def iotaInt (n : Int) : List Int :=
  (List.range n.toNat).map Nat.cast

/-- `MPIManager::log`: if the rank and level filters pass, dispatch on the
level; with selector `zero` the matching renderer runs when the rank is 0,
with selector `all` the code loops over every rank index, the matching rank
renders, and every rank executes a barrier after each index. -/
def MPIManager.log (m : MPIManager) (level : Level) (msg : String) :
    List Event :=
  if m.sufficient_rank && m.sufficient_level level then
    match level with
    | .emerg =>
      match m.ranks with
      | .zero => if (0 : Int) = m.rank then [m.log_emerg msg] else []
      | .all =>
        (iotaInt m.size).flatMap fun i =>
          (if m.rank = i then [m.log_emerg msg] else []) ++ [Event.barrier]
    | .alert =>
      match m.ranks with
      | .zero => if (0 : Int) = m.rank then [m.log_alert msg] else []
      | .all =>
        (iotaInt m.size).flatMap fun i =>
          (if m.rank = i then [m.log_alert msg] else []) ++ [Event.barrier]
    | .crit =>
      match m.ranks with
      | .zero => if (0 : Int) = m.rank then [m.log_crit msg] else []
      | .all =>
        (iotaInt m.size).flatMap fun i =>
          (if m.rank = i then [m.log_crit msg] else []) ++ [Event.barrier]
    | .err =>
      match m.ranks with
      | .zero => if (0 : Int) = m.rank then [m.log_err msg] else []
      | .all =>
        (iotaInt m.size).flatMap fun i =>
          (if m.rank = i then [m.log_err msg] else []) ++ [Event.barrier]
    | .warning =>
      match m.ranks with
      | .zero => if (0 : Int) = m.rank then [m.log_warning msg] else []
      | .all =>
        (iotaInt m.size).flatMap fun i =>
          (if m.rank = i then [m.log_warning msg] else []) ++ [Event.barrier]
    | .notice =>
      match m.ranks with
      | .zero => if (0 : Int) = m.rank then [m.log_notice msg] else []
      | .all =>
        (iotaInt m.size).flatMap fun i =>
          (if m.rank = i then [m.log_notice msg] else []) ++ [Event.barrier]
    | .info =>
      match m.ranks with
      | .zero => if (0 : Int) = m.rank then [m.log_info msg] else []
      | .all =>
        (iotaInt m.size).flatMap fun i =>
          (if m.rank = i then [m.log_info msg] else []) ++ [Event.barrier]
    | .debug =>
      match m.ranks with
      | .zero => if (0 : Int) = m.rank then [m.log_debug msg] else []
      | .all =>
        (iotaInt m.size).flatMap fun i =>
          (if m.rank = i then [m.log_debug msg] else []) ++ [Event.barrier]
  else []

/-- `MPIManager::abort`: unconditionally renders the message at emergency
level on the calling rank, then calls `MPI_Abort` with `EXIT_FAILURE` (= 1);
`MPI_Abort` does not return, so the abort event ends the trace. -/
def MPIManager.abort (m : MPIManager) (msg : String) : List Event :=
  [m.log_emerg msg, Event.abortGroup 1]

/-- Rendering of a chrono time point with `fmt` (format `%Y-%m-%d %H:%M:%S`),
abstracted to the decimal rendering of the abstract timestamp. -/
def formatTimestamp (t : Nat) : String :=
  toString t

/-- Rendering of a chrono duration with `fmt` (format `%H:%M:%S`), abstracted
to the decimal rendering of the abstract tick count. -/
def formatDuration (d : Nat) : String :=
  toString d

/-- Message text built by `MPIManager::timer_start` for the start line. -/
def startMessage (t : Timer) : String :=
  "Timer: `" ++ t.name ++ "` started at: " ++ formatTimestamp t.start

/-- Message text built by `MPIManager::timer_stop` for the stop line of
timer `t` when the stop-time timestamp is `now`. -/
def stopMessage (t : Timer) (now : Nat) : String :=
  "Timer: `" ++ t.name ++ "` stopped at: " ++ formatTimestamp now ++
    " with duration: " ++ formatDuration (now - t.start)

/-- `MPIManager::timer_start`: if the rank and level filters pass, read the
clock (`now`), push `{now, level, name}` onto the back of the timer stack and
log a start line for it at that level; otherwise do nothing. -/
def MPIState.timer_start (s : MPIState) (now : Nat) (level : Level)
    (name : String) : MPIState × List Event :=
  if s.mgr.sufficient_rank && s.mgr.sufficient_level level then
    let t : Timer := ⟨now, level, name⟩
    (⟨s.mgr, s.timers ++ [t]⟩, s.mgr.log level (startMessage t))
  else (s, [])

/-- `MPIManager::timer_stop`: if the rank filter passes and the timer stack
is non-empty, read the clock (`now`), take the back (most recently started)
timer, log a stop line at the recorded level of that timer reporting the stop time
and the elapsed duration, and pop the timer; otherwise do nothing. -/
def MPIState.timer_stop (s : MPIState) (now : Nat) : MPIState × List Event :=
  if s.mgr.sufficient_rank && !s.timers.isEmpty then
    match s.timers.getLast? with
    | some timer =>
      (⟨s.mgr, s.timers.dropLast⟩, s.mgr.log timer.level (stopMessage timer now))
    | none => (s, [])
  else (s, [])

/-- The drain loop of the destructor: `for (auto timer : timers) timer_stop();`
calls `timer_stop` once per timer that is on the stack when the loop starts
(each call pops the current back element).  Modelled as `n` successive calls
to `timer_stop`, with `n` the initial stack length. -/
def drainTimers (s : MPIState) (now : Nat) : Nat → MPIState × List Event
  | 0 => (s, [])
  | n + 1 =>
    let (s1, evs1) := s.timer_stop now
    let (s2, evs2) := drainTimers s1 now n
    (s2, evs1 ++ evs2)

/-- Warning text logged by the destructor when timers are still open. -/
def destructWarning : String :=
  "Timers are running at the time of environment destruction."

/-- `MPIManager::~MPIManager`: if timers are still open, log a warning and
drain them with repeated `timer_stop` calls; in every case finish by calling
`MPI_Finalize` (leaving the runtime). -/
def MPIState.destruct (s : MPIState) (now : Nat) : List Event :=
  if !s.timers.isEmpty then
    s.mgr.log Level.warning destructWarning ++
      (drainTimers s now s.timers.length).2 ++ [Event.finalize]
  else [Event.finalize]

/-- Label string printed by the private renderer of each level. -/
def levelLabel : Level → String
  | .emerg => "[EMERG]"
  | .alert => "[ALERT]"
  | .crit => "[CRIT]"
  | .err => "[ERR]"
  | .warning => "[WARNING]"
  | .notice => "[NOTICE]"
  | .info => "[INFO]"
  | .debug => "[DEBUG]"

/-- Canonical form of `log`: the eight per-level branches only differ in the
label of the rendered line. -/
theorem MPIManager.log_eq (m : MPIManager) (lvl : Level) (msg : String) :
    m.log lvl msg =
      if m.sufficient_rank && m.sufficient_level lvl then
        match m.ranks with
        | .zero =>
          if (0 : Int) = m.rank then [Event.line m.rank (levelLabel lvl) msg]
          else []
        | .all =>
          (iotaInt m.size).flatMap fun i =>
            (if m.rank = i then [Event.line m.rank (levelLabel lvl) msg]
              else []) ++ [Event.barrier]
      else [] := by
  cases lvl <;> rfl

/-- `sufficient_rank` passes exactly when the selector is `all` or the rank
is 0. -/
theorem MPIManager.sufficient_rank_iff (m : MPIManager) :
    m.sufficient_rank = true ↔ (m.ranks = Ranks.all ∨ m.rank = 0) := by
  unfold MPIManager.sufficient_rank
  cases m.ranks
  · simp
    omega
  · simp

/-- `sufficient_level` passes exactly when the ordinal of the queried level is
at most the ordinal of the configured maximum. -/
theorem MPIManager.sufficient_level_iff (m : MPIManager) (lvl : Level) :
    m.sufficient_level lvl = true ↔ lvl.ord ≤ m.level.ord := by
  unfold MPIManager.sufficient_level
  split <;> simp_all

/-- Membership in `iotaInt n` is exactly the interval `[0, n)`. -/
theorem iotaInt_mem (r n : Int) : r ∈ iotaInt n ↔ 0 ≤ r ∧ r < n := by
  unfold iotaInt
  constructor
  · intro h
    obtain ⟨a, ha, rfl⟩ := List.mem_map.mp h
    have := List.mem_range.mp ha
    omega
  · intro h
    exact List.mem_map.mpr ⟨r.toNat, List.mem_range.mpr (by omega), by omega⟩

/-- `iotaInt n` has no duplicate entries. -/
theorem iotaInt_nodup (n : Int) : (iotaInt n).Nodup := by
  unfold iotaInt
  exact (List.nodup_range _).map fun a b h => by omega

/-- A rank in `[0, n)` occurs exactly once in `iotaInt n`. -/
theorem iotaInt_count (r n : Int) (h0 : 0 ≤ r) (h1 : r < n) :
    (iotaInt n).count r = 1 :=
  List.count_eq_one_of_mem (iotaInt_nodup n) ((iotaInt_mem r n).mpr ⟨h0, h1⟩)

/-- Line count of the all-ranks barrier protocol over an arbitrary index
list: each index equal to `r` contributes the one emitted line, barriers
contribute nothing. -/
theorem lineCount_protocol (l : List Int) (r : Int) (e : Event)
    (he : e.isLine = true) :
    lineCount (l.flatMap fun i => (if r = i then [e] else []) ++
      [Event.barrier]) = l.count r := by
  induction l with
  | nil => rfl
  | cons a t ih =>
    simp only [List.flatMap_cons, lineCount, List.countP_append,
      List.count_cons] at *
    by_cases h : r = a <;> simp_all [List.countP_cons, Event.isLine] <;> omega

/-- Number of lines a `log` call emits, for a well-formed process identity
(`0 ≤ rank < size`): one if both filters pass, none otherwise. -/
theorem lineCount_log (m : MPIManager) (lvl : Level) (msg : String)
    (h0 : 0 ≤ m.rank) (h1 : m.rank < m.size) :
    lineCount (m.log lvl msg) =
      if m.sufficient_rank && m.sufficient_level lvl then 1 else 0 := by
  by_cases hg : (m.sufficient_rank && m.sufficient_level lvl) = true
  · rw [MPIManager.log_eq, if_pos hg, if_pos hg]
    rw [Bool.and_eq_true] at hg
    obtain ⟨hrk, _⟩ := hg
    cases hr : m.ranks with
    | zero =>
      have hr0 : m.rank = 0 := by
        rcases (MPIManager.sufficient_rank_iff m).mp hrk with h | h
        · rw [hr] at h
          cases h
        · exact h
      simp [hr0, lineCount, Event.isLine]
    | all =>
      exact (lineCount_protocol (iotaInt m.size) m.rank
        (Event.line m.rank (levelLabel lvl) msg) rfl).trans
        (iotaInt_count m.rank m.size h0 h1)
  · have hg' : (m.sufficient_rank && m.sufficient_level lvl) = false := by
      simpa using hg
    rw [MPIManager.log_eq, hg']
    simp [lineCount]

/-- C1: `log(level, msg)` emits exactly one line iff the rank filter (the
selector is all-ranks or the calling rank is 0) and the severity filter (the
ordinal of the level is at most the ordinal of the configured maximum) both pass; when
either filter fails it emits nothing at all.  `log` is modelled as a pure
function of the manager configuration returning only a trace, reflecting
that the C++ member function writes no member state. -/
theorem C1_log_iff_filters (m : MPIManager) (lvl : Level) (msg : String)
    (h0 : 0 ≤ m.rank) (h1 : m.rank < m.size) :
    (m.sufficient_rank = true ↔ (m.ranks = Ranks.all ∨ m.rank = 0)) ∧
    (m.sufficient_level lvl = true ↔ lvl.ord ≤ m.level.ord) ∧
    (lineCount (m.log lvl msg) =
      if m.sufficient_rank && m.sufficient_level lvl then 1 else 0) ∧
    ((m.sufficient_rank && m.sufficient_level lvl) = false →
      m.log lvl msg = []) := by
  refine ⟨MPIManager.sufficient_rank_iff m, MPIManager.sufficient_level_iff m lvl,
    lineCount_log m lvl msg h0 h1, fun hg => ?_⟩
  rw [MPIManager.log_eq, hg]
  rfl

/-- C1 witness: on a 1-process run configured at maximum level `info` with
selector `zero`, a `debug` call fails the severity filter and emits no
line. -/
theorem C1_log_iff_filters_witness :
    ((0 : Int) ≤ (MPIManager.construct 7 0 1 Level.info Ranks.zero).mgr.rank) ∧
    ((MPIManager.construct 7 0 1 Level.info Ranks.zero).mgr.rank <
      (MPIManager.construct 7 0 1 Level.info Ranks.zero).mgr.size) ∧
    lineCount ((MPIManager.construct 7 0 1 Level.info Ranks.zero).mgr.log
      Level.debug "x") = 0 := by
  refine ⟨by decide, by decide, ?_⟩
  have h := (C1_log_iff_filters (MPIManager.construct 7 0 1 Level.info
    Ranks.zero).mgr Level.debug "x" (by decide) (by decide)).2.2.1
  rw [h]
  decide

/-- C3: `abort(msg)` renders exactly one emergency line on the calling rank
regardless of the configured maximum level and selector, then calls the
group abort with the non-zero status `EXIT_FAILURE = 1`; the abort event is
the last event of the trace (`MPI_Abort` never returns). -/
theorem C3_abort_unconditional (m : MPIManager) (msg : String) :
    m.abort msg = [Event.line m.rank "[EMERG]" msg, Event.abortGroup 1] ∧
    lineCount (m.abort msg) = 1 ∧
    (m.abort msg).getLast? = some (Event.abortGroup 1) ∧ (1 : Int) ≠ 0 :=
  ⟨rfl, rfl, rfl, by decide⟩

/-- C5: severity filtering is monotone: if a lower-priority level passes
`sufficient_level` then every higher-priority (smaller ordinal) level also
passes. -/
theorem C5_sufficient_level_monotone (m : MPIManager) (s1 s2 : Level)
    (h12 : s1.ord ≤ s2.ord) (h2 : m.sufficient_level s2 = true) :
    m.sufficient_level s1 = true := by
  rw [MPIManager.sufficient_level_iff] at *
  omega

/-- C5 witness: with configured maximum `notice`, `warning` passes, hence so
does the higher-priority `err`. -/
theorem C5_sufficient_level_monotone_witness :
    Level.err.ord ≤ Level.warning.ord ∧
    (MPIManager.construct 0 0 1 Level.notice Ranks.all).mgr.sufficient_level
      Level.warning = true ∧
    (MPIManager.construct 0 0 1 Level.notice Ranks.all).mgr.sufficient_level
      Level.err = true :=
  ⟨by decide, by decide,
    C5_sufficient_level_monotone _ Level.err Level.warning (by decide)
      (by decide)⟩

/-- C7: `timer_stop` on an empty timer stack is a silent no-op: no events,
no error, state unchanged. -/
theorem C7_timer_stop_empty_noop (s : MPIState) (now : Nat)
    (h : s.timers = []) : s.timer_stop now = (s, []) := by
  unfold MPIState.timer_stop
  rw [h]
  simp

/-- C7 witness: a freshly constructed manager has an empty stack and
`timer_stop` leaves it untouched, emitting nothing. -/
theorem C7_timer_stop_empty_noop_witness :
    (MPIManager.construct 0 0 2 Level.debug Ranks.all).timers = [] ∧
    (MPIManager.construct 0 0 2 Level.debug Ranks.all).timer_stop 3 =
      (MPIManager.construct 0 0 2 Level.debug Ranks.all, []) :=
  ⟨rfl, C7_timer_stop_empty_noop (MPIManager.construct 0 0 2 Level.debug
    Ranks.all) 3 rfl⟩

/-- C9: the process identity (communicator, rank, size) and the engine
configuration (maximum level, rank selector) are never changed by any
operation: `timer_start` and `timer_stop` return a state with the same
`mgr` component, and `log` and `abort` are modelled as pure functions of the
manager that return only traces, since the C++ members assign no field. -/
theorem C9_config_immutable (s : MPIState) (now : Nat) (lvl : Level)
    (name : String) :
    (s.timer_start now lvl name).1.mgr = s.mgr ∧
    (s.timer_stop now).1.mgr = s.mgr ∧
    (s.timer_start now lvl name).1.mgr.comm = s.mgr.comm ∧
    (s.timer_start now lvl name).1.mgr.rank = s.mgr.rank ∧
    (s.timer_start now lvl name).1.mgr.size = s.mgr.size ∧
    (s.timer_start now lvl name).1.mgr.level = s.mgr.level ∧
    (s.timer_start now lvl name).1.mgr.ranks = s.mgr.ranks := by
  have hstart : (s.timer_start now lvl name).1.mgr = s.mgr := by
    unfold MPIState.timer_start
    split <;> rfl
  have hstop : (s.timer_stop now).1.mgr = s.mgr := by
    unfold MPIState.timer_stop
    split
    · split <;> rfl
    · rfl
  exact ⟨hstart, hstop, by rw [hstart], by rw [hstart], by rw [hstart],
    by rw [hstart], by rw [hstart]⟩

/-- When the rank filter passes and the stack is `l ++ [t]`, `timer_stop`
pops exactly `t` and logs its stop line. -/
theorem timer_stop_snoc (mgr : MPIManager) (l : List Timer) (t : Timer)
    (now : Nat) (hr : mgr.sufficient_rank = true) :
    MPIState.timer_stop ⟨mgr, l ++ [t]⟩ now =
      (⟨mgr, l⟩, mgr.log t.level (stopMessage t now)) := by
  unfold MPIState.timer_stop
  simp [hr]

/-- Draining a stack of `n = length` timers with `n` successive `timer_stop`
calls empties the stack and logs the stop lines in LIFO (reverse-push)
order. -/
theorem drainTimers_spec (mgr : MPIManager) (now : Nat) (l : List Timer)
    (hr : mgr.sufficient_rank = true) :
    drainTimers ⟨mgr, l⟩ now l.length =
      (⟨mgr, []⟩,
        l.reverse.flatMap fun t => mgr.log t.level (stopMessage t now)) := by
  induction l using List.reverseRecOn with
  | nil => rfl
  | append_singleton l' t ih =>
    have hlen : (l' ++ [t]).length = l'.length + 1 := by simp
    rw [hlen]
    unfold drainTimers
    rw [timer_stop_snoc mgr l' t now hr]
    simp [ih]

/-- C2: destroying the manager with a non-empty timer stack logs the warning
line first, then the stop line of every still-open timer in LIFO order, and
only then calls `MPI_Finalize`; concretely, a 1-process all-ranks manager at
maximum level `debug` destroyed with one open `info` timer emits exactly 2
lines during teardown. -/
theorem C2_destructor_drains (s : MPIState) (now : Nat)
    (hne : s.timers ≠ []) (hr : s.mgr.sufficient_rank = true) :
    (s.destruct now =
      s.mgr.log Level.warning destructWarning ++
        (s.timers.reverse.flatMap fun t =>
          s.mgr.log t.level (stopMessage t now)) ++ [Event.finalize]) ∧
    (s.destruct now).getLast? = some Event.finalize ∧
    lineCount ((((MPIManager.construct 0 0 1 Level.debug
      Ranks.all).timer_start 5 Level.info "X").1).destruct 9) = 2 := by
  obtain ⟨mgr, timers⟩ := s
  have hmain : MPIState.destruct ⟨mgr, timers⟩ now =
      mgr.log Level.warning destructWarning ++
        (timers.reverse.flatMap fun t =>
          mgr.log t.level (stopMessage t now)) ++ [Event.finalize] := by
    unfold MPIState.destruct
    rw [drainTimers_spec mgr now timers hr]
    simp_all
  refine ⟨hmain, ?_, by rfl⟩
  rw [hmain]
  simp

/-- C2 witness: the concrete teardown scenario, checked end to end through
the destructor theorem. -/
theorem C2_destructor_drains_witness :
    (((MPIManager.construct 0 0 1 Level.debug Ranks.all).timer_start 5
      Level.info "X").1.timers ≠ []) ∧
    ((((MPIManager.construct 0 0 1 Level.debug Ranks.all).timer_start 5
      Level.info "X").1).destruct 9).getLast? = some Event.finalize ∧
    lineCount ((((MPIManager.construct 0 0 1 Level.debug
      Ranks.all).timer_start 5 Level.info "X").1).destruct 9) = 2 := by
  have h := C2_destructor_drains (((MPIManager.construct 0 0 1 Level.debug
    Ranks.all).timer_start 5 Level.info "X").1) 9 (by decide) (by decide)
  exact ⟨by decide, h.2.1, h.2.2⟩

/-- Lines contributed to round `i` of the all-ranks protocol when the
processes of `procs` reach round `i` in that order: a process emits iff its
rank equals the round index (its barrier call itself produces no line). -/
def roundLines (i : Int) (e : Int → Event) (procs : List Int) : List Event :=
  procs.flatMap fun r => if r = i then [e r] else []

/-- What an ordered log collector observes across a whole all-ranks `log`
call: the barrier protocol forces round `i` to complete on every process
before any process enters round `i + 1`, so the observation is the rounds in
index order, the emissions of each round merged in an arbitrary per-round
process order `sched i`. -/
def collectorLines (size : Int) (sched : Int → List Int) (e : Int → Event) :
    List Event :=
  (iotaInt size).flatMap fun i => roundLines i e (sched i)

/-- A round whose index occurs nowhere in the process order contributes no
lines. -/
theorem roundLines_of_count_zero (i : Int) (e : Int → Event) (l : List Int)
    (h : l.count i = 0) : roundLines i e l = [] := by
  induction l with
  | nil => rfl
  | cons a t ih =>
    by_cases hai : a = i
    · subst hai
      simp [List.count_cons] at h
    · have ht : t.count i = 0 := by
        simp [List.count_cons, hai] at h
        omega
      simp [roundLines, List.flatMap_cons, hai] at ih ⊢
      exact ih ht

/-- A round whose index occurs exactly once in the process order contributes
exactly the one line of the matching process, wherever it sits in the
order. -/
theorem roundLines_of_count_one (i : Int) (e : Int → Event) (l : List Int)
    (h : l.count i = 1) : roundLines i e l = [e i] := by
  induction l with
  | nil => simp [List.count_nil] at h
  | cons a t ih =>
    by_cases hai : a = i
    · subst hai
      have ht : t.count a = 0 := by
        simp [List.count_cons] at h
        omega
      simp [roundLines, List.flatMap_cons,
        roundLines_of_count_zero a e t ht]
      intro x hx hxa
      exact absurd (hxa ▸ hx) (List.count_eq_zero.mp ht)
    · have ht : t.count i = 1 := by
        simpa [List.count_cons, hai] using h
      simp [roundLines, List.flatMap_cons, hai] at ih ⊢
      exact ih ht

/-- For any per-round process orders that are permutations of the rank range,
the collector observes exactly one line per round, in round order: the line
of rank 0, then rank 1, …, then rank `size - 1`. -/
theorem collectorLines_eq (size : Int) (sched : Int → List Int)
    (e : Int → Event) (hsched : ∀ i, List.Perm (sched i) (iotaInt size)) :
    collectorLines size sched e = (iotaInt size).map e := by
  unfold collectorLines
  have key : ∀ l : List Int, (∀ i ∈ l, (sched i).count i = 1) →
      l.flatMap (fun i => roundLines i e (sched i)) = l.map e := by
    intro l
    induction l with
    | nil => intro _; rfl
    | cons a t ih =>
      intro h
      simp only [List.flatMap_cons, List.map_cons]
      rw [roundLines_of_count_one a e (sched a) (h a (by simp)),
        ih fun i hi => h i (by simp [hi])]
      rfl
  apply key
  intro i hi
  rw [(hsched i).count_eq]
  exact List.count_eq_one_of_mem (iotaInt_nodup size) hi

/-- The rank range is strictly increasing. -/
theorem iotaInt_pairwise (n : Int) : (iotaInt n).Pairwise (· < ·) := by
  unfold iotaInt
  exact (List.pairwise_lt_range _).map Nat.cast fun a b h => by omega

/-- C4: with selector all-ranks and passing filters, `log` follows the
barrier-gated round-robin protocol — for each index `i` in increasing order
the matching rank emits and every rank then executes a barrier — and
consequently any barrier-consistent collector observation has its emitted
lines in (strictly, hence non-decreasingly) increasing rank order, for every
per-round interleaving of the processes. -/
theorem C4_allranks_ordering (m : MPIManager) (lvl : Level) (msg : String)
    (sched : Int → List Int) (hall : m.ranks = Ranks.all)
    (hg : (m.sufficient_rank && m.sufficient_level lvl) = true)
    (hsched : ∀ i, List.Perm (sched i) (iotaInt m.size)) :
    (m.log lvl msg = (iotaInt m.size).flatMap fun i =>
      (if m.rank = i then [Event.line m.rank (levelLabel lvl) msg]
        else []) ++ [Event.barrier]) ∧
    (collectorLines m.size sched
        (fun r => Event.line r (levelLabel lvl) msg) =
      (iotaInt m.size).map fun r => Event.line r (levelLabel lvl) msg) ∧
    ((collectorLines m.size sched
        (fun r => Event.line r (levelLabel lvl) msg)).map
      Event.lineRank).Pairwise (· ≤ ·) := by
  have hcoll := collectorLines_eq m.size sched
    (fun r => Event.line r (levelLabel lvl) msg) hsched
  refine ⟨?_, hcoll, ?_⟩
  · rw [MPIManager.log_eq, if_pos hg, hall]
  · rw [hcoll, List.map_map]
    have hranks : (Event.lineRank ∘ fun r =>
        Event.line r (levelLabel lvl) msg) = id := by
      funext r
      rfl
    rw [hranks, List.map_id]
    exact (iotaInt_pairwise m.size).imp le_of_lt

/-- C4 witness: two ranks, selector all, a passing `info` call, and the
nontrivial per-round interleaving that always lets rank 1 reach the collector
first: the collector still sees the line of rank 0 before the line of rank 1. -/
theorem C4_allranks_ordering_witness :
    ((MPIManager.construct 0 0 2 Level.debug Ranks.all).mgr.ranks =
      Ranks.all) ∧
    (((MPIManager.construct 0 0 2 Level.debug Ranks.all).mgr.sufficient_rank
      && (MPIManager.construct 0 0 2 Level.debug
        Ranks.all).mgr.sufficient_level Level.info) = true) ∧
    collectorLines 2 (fun _ => [1, 0])
        (fun r => Event.line r (levelLabel Level.info) "x") =
      (iotaInt 2).map fun r => Event.line r (levelLabel Level.info) "x" := by
  refine ⟨rfl, by decide, ?_⟩
  have hs : ∀ _ : Int, List.Perm [(1 : Int), 0]
      (iotaInt (MPIManager.construct 0 0 2 Level.debug Ranks.all).mgr.size) :=
    fun _ => by decide
  exact (C4_allranks_ordering
    (MPIManager.construct 0 0 2 Level.debug Ranks.all).mgr Level.info "x"
    (fun _ => [1, 0]) rfl (by decide) hs).2.1

/-- C6: `timer_stop` always pops exactly the most recently started still-open
timer (the back of the stack), logging its stop line; in the concrete
start-A, start-B, stop sequence from an empty stack, B is stopped and A is
the only timer left open. -/
theorem C6_timer_stack_lifo (s : MPIState) (now1 now2 now3 : Nat)
    (lvlA lvlB : Level) (nameA nameB : String) (hE : s.timers = [])
    (hA : (s.mgr.sufficient_rank && s.mgr.sufficient_level lvlA) = true)
    (hB : (s.mgr.sufficient_rank && s.mgr.sufficient_level lvlB) = true) :
    (∀ (s2 : MPIState) (now : Nat), s2.mgr.sufficient_rank = true →
      ∀ t, s2.timers.getLast? = some t →
        (s2.timer_stop now).1.timers = s2.timers.dropLast ∧
        (s2.timer_stop now).2 = s2.mgr.log t.level (stopMessage t now)) ∧
    ((((s.timer_start now1 lvlA nameA).1.timer_start now2 lvlB
      nameB).1.timer_stop now3).1.timers = [⟨now1, lvlA, nameA⟩]) ∧
    ((((s.timer_start now1 lvlA nameA).1.timer_start now2 lvlB
      nameB).1.timer_stop now3).2 =
      s.mgr.log lvlB (stopMessage ⟨now2, lvlB, nameB⟩ now3)) := by
  have hgen : ∀ (s2 : MPIState) (now : Nat), s2.mgr.sufficient_rank = true →
      ∀ t, s2.timers.getLast? = some t →
        (s2.timer_stop now).1.timers = s2.timers.dropLast ∧
        (s2.timer_stop now).2 = s2.mgr.log t.level (stopMessage t now) := by
    intro s2 now hr t ht
    obtain ⟨mgr2, tl2⟩ := s2
    obtain ⟨l2, rfl⟩ := List.getLast?_eq_some_iff.mp ht
    rw [timer_stop_snoc mgr2 l2 t now hr]
    simp
  have h1 : (s.timer_start now1 lvlA nameA).1 =
      ⟨s.mgr, [⟨now1, lvlA, nameA⟩]⟩ := by
    simp [MPIState.timer_start, hA, hE]
  have h2 : ((s.timer_start now1 lvlA nameA).1.timer_start now2 lvlB
      nameB).1 = ⟨s.mgr, [⟨now1, lvlA, nameA⟩, ⟨now2, lvlB, nameB⟩]⟩ := by
    rw [h1]
    simp [MPIState.timer_start, hB]
  have hr : s.mgr.sufficient_rank = true := by
    rw [Bool.and_eq_true] at hB
    exact hB.1
  have hstop := timer_stop_snoc s.mgr [⟨now1, lvlA, nameA⟩]
    ⟨now2, lvlB, nameB⟩ now3 hr
  refine ⟨hgen, ?_, ?_⟩
  · rw [h2]
    have : ([⟨now1, lvlA, nameA⟩] : List Timer) ++ [⟨now2, lvlB, nameB⟩] =
        [⟨now1, lvlA, nameA⟩, ⟨now2, lvlB, nameB⟩] := rfl
    rw [← this, hstop]
  · rw [h2]
    have : ([⟨now1, lvlA, nameA⟩] : List Timer) ++ [⟨now2, lvlB, nameB⟩] =
        [⟨now1, lvlA, nameA⟩, ⟨now2, lvlB, nameB⟩] := rfl
    rw [← this, hstop]

/-- C6 witness: the A/B scenario on a concrete 1-process all-ranks manager. -/
theorem C6_timer_stack_lifo_witness :
    ((((MPIManager.construct 0 0 1 Level.debug Ranks.all).timer_start 1
      Level.info "A").1.timer_start 2 Level.notice "B").1.timer_stop
        3).1.timers = [⟨1, Level.info, "A"⟩] ∧
    ((((MPIManager.construct 0 0 1 Level.debug Ranks.all).timer_start 1
      Level.info "A").1.timer_start 2 Level.notice "B").1.timer_stop 3).2 =
      (MPIManager.construct 0 0 1 Level.debug Ranks.all).mgr.log Level.notice
        (stopMessage ⟨2, Level.notice, "B"⟩ 3) := by
  have h := C6_timer_stack_lifo
    (MPIManager.construct 0 0 1 Level.debug Ranks.all) 1 2 3 Level.info
    Level.notice "A" "B" rfl (by decide) (by decide)
  exact ⟨h.2.1, h.2.2⟩

/-- C8: `timer_start` acts iff both filters pass: it pushes the new timer
(with the captured timestamp, the level and the name) onto the back of the
stack and logs exactly one start line reporting the timer name and
formatted start time; when a filter fails, state and output are untouched. -/
theorem C8_timer_start_iff (s : MPIState) (now : Nat) (lvl : Level)
    (name : String) (h0 : 0 ≤ s.mgr.rank) (h1 : s.mgr.rank < s.mgr.size) :
    ((s.mgr.sufficient_rank && s.mgr.sufficient_level lvl) = true →
      s.timer_start now lvl name =
        (⟨s.mgr, s.timers ++ [⟨now, lvl, name⟩]⟩,
          s.mgr.log lvl (startMessage ⟨now, lvl, name⟩)) ∧
      lineCount (s.timer_start now lvl name).2 = 1) ∧
    ((s.mgr.sufficient_rank && s.mgr.sufficient_level lvl) = false →
      s.timer_start now lvl name = (s, [])) := by
  constructor
  · intro hg
    have heq : s.timer_start now lvl name =
        (⟨s.mgr, s.timers ++ [⟨now, lvl, name⟩]⟩,
          s.mgr.log lvl (startMessage ⟨now, lvl, name⟩)) := by
      simp [MPIState.timer_start, hg]
    refine ⟨heq, ?_⟩
    rw [heq]
    have := lineCount_log s.mgr lvl (startMessage ⟨now, lvl, name⟩) h0 h1
    rw [this, if_pos hg]
  · intro hg
    simp [MPIState.timer_start, hg]

/-- C8 witness: a passing start pushes and emits one line; on the same
manager a failing severity leaves everything untouched. -/
theorem C8_timer_start_iff_witness :
    ((MPIManager.construct 0 0 1 Level.info Ranks.all).timer_start 4
      Level.notice "T").1.timers = [⟨4, Level.notice, "T"⟩] ∧
    lineCount (((MPIManager.construct 0 0 1 Level.info
      Ranks.all).timer_start 4 Level.notice "T").2) = 1 ∧
    (MPIManager.construct 0 0 1 Level.info Ranks.all).timer_start 4
      Level.debug "T" = (MPIManager.construct 0 0 1 Level.info Ranks.all,
        []) := by
  have hpass := (C8_timer_start_iff (MPIManager.construct 0 0 1 Level.info
    Ranks.all) 4 Level.notice "T" (by decide) (by decide)).1 (by decide)
  have hfail := (C8_timer_start_iff (MPIManager.construct 0 0 1 Level.info
    Ranks.all) 4 Level.debug "T" (by decide) (by decide)).2 (by decide)
  refine ⟨?_, hpass.2, hfail⟩
  rw [hpass.1]
  rfl

/-- Invariant of the timer stack: every stacked timer passed the severity
filter when it was pushed, and a non-empty stack means the rank filter
passes; since the configuration is immutable these facts stay true. -/
def TimerInv (s : MPIState) : Prop :=
  (∀ t ∈ s.timers, s.mgr.sufficient_level t.level = true) ∧
  (s.timers ≠ [] → s.mgr.sufficient_rank = true)

/-- C10: the constructor establishes the stack invariant, `timer_start` and
`timer_stop` preserve it, and under it the filter re-check inside the `log`
call that `timer_stop` makes for the top timer always passes — the stop line
is never suppressed. -/
theorem C10_stack_invariant (s : MPIState) (now : Nat) (lvl : Level)
    (name : String) (hinv : TimerInv s) :
    (∀ (comm : Nat) (rank size : Int) (level : Level) (ranks : Ranks),
      TimerInv (MPIManager.construct comm rank size level ranks)) ∧
    TimerInv (s.timer_start now lvl name).1 ∧
    TimerInv (s.timer_stop now).1 ∧
    (∀ t, s.timers.getLast? = some t →
      (s.mgr.sufficient_rank && s.mgr.sufficient_level t.level) = true) := by
  obtain ⟨hlev, hrk⟩ := hinv
  refine ⟨?_, ?_, ?_, ?_⟩
  · intro comm rank size level ranks
    exact ⟨by simp [MPIManager.construct], by simp [MPIManager.construct]⟩
  · by_cases hg : (s.mgr.sufficient_rank && s.mgr.sufficient_level lvl) = true
    · have heq : (s.timer_start now lvl name).1 =
          ⟨s.mgr, s.timers ++ [⟨now, lvl, name⟩]⟩ := by
        simp [MPIState.timer_start, hg]
      rw [heq]
      rw [Bool.and_eq_true] at hg
      constructor
      · intro t ht
        rcases List.mem_append.mp ht with h | h
        · exact hlev t h
        · simp at h
          subst h
          exact hg.2
      · intro _
        exact hg.1
    · have hg2 : (s.mgr.sufficient_rank && s.mgr.sufficient_level lvl) =
          false := by simpa using hg
      have heq : s.timer_start now lvl name = (s, []) := by
        simp [MPIState.timer_start, hg2]
      rw [heq]
      exact ⟨hlev, hrk⟩
  · unfold MPIState.timer_stop
    split
    · split
      · constructor
        · intro u hu
          exact hlev u ((List.dropLast_sublist _).subset hu)
        · intro hne
          apply hrk
          intro hnil
          apply hne
          rw [hnil]
          rfl
      · exact ⟨hlev, hrk⟩
    · exact ⟨hlev, hrk⟩
  · intro t ht
    obtain ⟨l2, hdec⟩ := List.getLast?_eq_some_iff.mp ht
    have hmem : t ∈ s.timers := by
      rw [hdec]
      simp
    have hne : s.timers ≠ [] := by
      rw [hdec]
      simp
    rw [Bool.and_eq_true]
    exact ⟨hrk hne, hlev t hmem⟩

/-- C10 witness: a manager holding one passing timer satisfies the invariant
and the guard of its stop line passes. -/
theorem C10_stack_invariant_witness :
    TimerInv ((MPIManager.construct 0 0 1 Level.debug Ranks.all).timer_start
      5 Level.info "X").1 ∧
    (((MPIManager.construct 0 0 1 Level.debug Ranks.all).timer_start 5
      Level.info "X").1.mgr.sufficient_rank &&
      ((MPIManager.construct 0 0 1 Level.debug Ranks.all).timer_start 5
        Level.info "X").1.mgr.sufficient_level Level.info) = true := by
  have hinv : TimerInv ((MPIManager.construct 0 0 1 Level.debug
      Ranks.all).timer_start 5 Level.info "X").1 := by
    unfold TimerInv
    exact ⟨by decide, fun _ => by decide⟩
  refine ⟨hinv, ?_⟩
  exact (C10_stack_invariant _ 9 Level.debug "Y" hinv).2.2.2
    ⟨5, Level.info, "X"⟩ (by decide)
